import Mathlib

/-!
Verification of the ORCID-to-Bluesky announcement pipeline
(source: orcid_to_bluesky.py).

Shallow embedding conventions:
* JSON-ish registry records are modelled by structures carrying exactly the
  fields the code reads; a field the code accesses with .get is an Option.
* Timestamps are integer milliseconds since the epoch.  The code converts
  the millisecond value to a UTC datetime before comparing with the cutoff;
  that conversion is strictly monotone and millisecond-exact at the scale
  the comparison is made, so we compare milliseconds directly and express
  the cutoff now - days_back in milliseconds.
* Network effects are inputs: the works fetched per identifier and the
  person record per identifier are oracle functions handed to the runner;
  an exception inside fetch_orcid_name's try block is the none case of its
  response argument.
* The atproto TextBuilder is an ordered list of segments (plain text, link
  span, tag span); build_text flattens the display texts in order.
-/

namespace OrcidBluesky

/-- ASCII whitespace, the characters str.strip removes from the names we
handle (Python also strips other Unicode whitespace; the fields at stake
are human names where these four cover the behaviour exercised). -/
def isAsciiWs (c : Char) : Bool := c = ' ' || c = '\t' || c = '\n' || c = '\r'

/-- Embedding of str.strip on a string: drop whitespace at both ends. -/
def pyStrip (s : String) : String :=
  ⟨((s.data.dropWhile isAsciiWs).reverse.dropWhile isAsciiWs).reverse⟩

/-- ASCII lowering of one character, the case str.lower exercises on the
external-id-type values compared against doi. -/
def lowerChar (c : Char) : Char :=
  if 'A' ≤ c && c ≤ 'Z' then Char.ofNat (c.toNat + 32) else c

/-- Embedding of str.lower, character by character. -/
def pyLower (s : String) : String := ⟨s.data.map lowerChar⟩

/-- Embedding of tag.lstrip on the hash character: drops every leading
hash, not just the first. -/
def lstripHash (s : String) : String := ⟨s.data.dropWhile (· = '#')⟩

/-- Shape of the value found at ws.title.title after the two
chained .get calls.  A dict is modelled by the optional string at its
"value" key (vdict none covers a dict without that key); vstr is a bare
string; vother is any other truthy JSON value (e.g. a number). -/
inductive TitleVal where
  | vdict (value : Option String)
  | vstr (s : String)
  | vother
  deriving DecidableEq, Repr

/-- Python truthiness for a TitleVal, as tested by the `or` in
`title_obj.get("title", \x7b\x7d) or \x7b\x7d`: an empty dict and an empty
string are falsy; a dict holding a "value" key is non-empty hence truthy;
vother stands for a truthy non-dict non-string value (a falsy one behaves
exactly like a missing field, which the surrounding Option already covers). -/
def pyTruthyTitle : TitleVal → Bool
  | .vdict none => false
  | .vdict (some _) => true
  | .vstr s => s != ""
  | .vother => true

/-- One element of ws.external-ids.external-id: the code reads only
the type and value keys, each possibly absent. -/
structure ExtId where
  idType : Option String
  value : Option String
  deriving DecidableEq, Repr

/-- One work-summary entry, carrying exactly the fields filter_recent reads:
lastModified is the integer at last-modified-date.value (none when either
key is absent); title is the value at the "title" key (outer none: key absent
or falsy, inner: the nested "title" key); extIds is the external-id list. -/
structure WorkSummary where
  lastModified : Option Int
  title : Option (Option TitleVal)
  extIds : List ExtId
  deriving DecidableEq, Repr

/-- One group from the works response; the code reads only work-summary. -/
structure Group where
  workSummary : List WorkSummary
  deriving DecidableEq, Repr

/-- The dict appended by filter_recent: title, url, date (date kept in
integer milliseconds, see the header comment). -/
structure Item where
  title : String
  url : Option String
  date : Int
  deriving DecidableEq, Repr

/-- Milliseconds per day, used to express cutoff = now - timedelta(days). -/
def msPerDay : Int := 86400000

/-- Title extraction, lines 75-83 of the source:
title_obj = ws.get("title", \x7b\x7d) or \x7b\x7d;
tval = title_obj.get("title", \x7b\x7d) or \x7b\x7d; then the dict branch
takes tval.get("value", "(no title)"), the str branch takes tval itself,
anything else gives the placeholder.  The falsy coercion turns a falsy
tval into an empty dict, i.e. TitleVal.vdict none. -/
def extractTitle (titleField : Option (Option TitleVal)) : String :=
  let tval : TitleVal :=
    match titleField with
    | none => .vdict none
    | some none => .vdict none
    | some (some v) => if pyTruthyTitle v then v else .vdict none
  match tval with
  | .vdict value => value.getD "(no title)"
  | .vstr s => s
  | .vother => "(no title)"

/-- DOI scan, lines 85-92 of the source: first external id whose lowered
type is "doi" and whose value is truthy yields https doi.org slash value
and breaks; a doi-typed id with a falsy value does not break the loop. -/
def findDoi : List ExtId → Option String
  | [] => none
  | e :: rest =>
    if pyLower (e.idType.getD "") = "doi" then
      match e.value with
      | some v => if v = "" then findDoi rest else some ("https://doi.org/" ++ v)
      | none => findDoi rest
    else findDoi rest

/-- Spec-side reading of the DOI rule (claim C5): an external id hits when
its type case-insensitively equals doi and its value is non-empty. -/
def isDoiHit (e : ExtId) : Bool :=
  (pyLower (e.idType.getD "") == "doi") && (e.value.getD "" != "")

/-- Body of the inner loop of filter_recent for one work summary (lines
66-94): skip when the timestamp is absent or falsy (0), skip when strictly
before the cutoff, otherwise emit the title/url/date dict. -/
def processSummary (cutoff : Int) (ws : WorkSummary) : Option Item :=
  match ws.lastModified with
  | none => none
  | some ts =>
    if ts = 0 then none
    else if ts < cutoff then none
    else some { title := extractTitle ws.title, url := findDoi ws.extIds, date := ts }

/-- The results list built by the two nested loops of filter_recent,
in traversal order, before sorting. -/
def collectItems (cutoff : Int) : List Group → List Item
  | [] => []
  | g :: gs => g.workSummary.filterMap (processSummary cutoff) ++ collectItems cutoff gs

/-- Stable insertion step for the descending sort: x passes over exactly
the elements strictly newer than it, so it lands before every element of
equal date (preserving input order among equals). -/
def insertDesc (x : Item) : List Item → List Item
  | [] => [x]
  | y :: ys => if x.date < y.date then y :: insertDesc x ys else x :: y :: ys

/-- Stable sort by date descending: the embedding of Python's
sorted(results, key=date, reverse=True), which is a stable descending
sort; any two stable sorts under the same preorder agree pointwise. -/
def sortDesc : List Item → List Item
  | [] => []
  | x :: xs => insertDesc x (sortDesc xs)

/-- filter_recent (lines 60-98): cutoff is now minus days days, the nested
loops collect items, and the result is sorted newest first. -/
def filter_recent (now : Int) (groups : List Group) (days : Int) : List Item :=
  sortDesc (collectItems (now - days * msPerDay) groups)

/-- The two optional name parts fetch_orcid_name reads from the person
record: the strings at name.given-names.value and name.family-name.value
(none when any link of the chain is absent or null; the code then
coerces to the empty string with `or`). -/
structure PersonName where
  givenNames : Option String
  familyName : Option String
  deriving DecidableEq, Repr

/-- fetch_orcid_name (lines 19-45).  The response argument stands for the
outcome of the guarded network-and-parse block: none is any exception
(network, HTTP status, JSON parse), caught and answered with the raw id.
On success the truthy name parts are space-joined and stripped, and an
empty result again falls back to the raw id. -/
def fetch_orcid_name (orcidId : String) (response : Option PersonName) : String :=
  match response with
  | none => orcidId
  | some pn =>
    let given := pn.givenNames.getD ""
    let family := pn.familyName.getD ""
    let fullName := pyStrip (String.intercalate " " ([given, family].filter fun p => p != ""))
    if fullName = "" then orcidId else fullName

/-- One segment of the atproto TextBuilder as the code uses it: plain
text, a link span (display text plus target URL), or a tag span (display
text plus underlying tag value). -/
inductive Segment where
  | text (s : String)
  | link (display target : String)
  | tag (display value : String)
  deriving DecidableEq, Repr

/-- Display text of a segment, what build_text flattens. -/
def Segment.displayText : Segment → String
  | .text s => s
  | .link d _ => d
  | .tag d _ => d

/-- Underlying tag value of a tag span, none for other segments. -/
def Segment.tagValue : Segment → Option String
  | .tag _ v => some v
  | _ => none

/-- build_text: concatenation of every segment's display text in order. -/
def buildText (segs : List Segment) : String :=
  segs.foldl (fun acc s => acc ++ s.displayText) ""

/-- The tag spans emitted by the hashtag loop (lines 164-170): each tag is
stripped of leading hashes, shown as a hash plus the cleaned tag, with a
trailing space appended to the display of every tag except the last
(the enumerate index test i against len minus one). -/
def tagSegs : List String → List Segment
  | [] => []
  | [t] => [.tag ("#" ++ lstripHash t) (lstripHash t)]
  | t :: rest => .tag ("#" ++ lstripHash t ++ " ") (lstripHash t) :: tagSegs rest

/-- The document built for one item inside the inner loop of main (lines
146-170): author link line, title line, optional DOI line where display
and target are both the URL, and the optional hashtag line. -/
def composePost (authorName profileUrl : String) (item : Item)
    (hashtags : List String) : List Segment :=
  [Segment.text "New paper from ", Segment.link authorName profileUrl,
   Segment.text ("\n" ++ item.title)]
  ++ (match item.url with
      | some u => [Segment.text "\n", Segment.link u u]
      | none => [])
  ++ (if hashtags.isEmpty then [] else Segment.text "\n" :: tagSegs hashtags)

/-- Observable actions of one run, in order: a person-record fetch, a
works fetch, or a publish of a composed document. -/
inductive Event where
  | fetchName (oid : String)
  | fetchWorks (oid : String)
  | publish (oid : String) (doc : List Segment)
  deriving DecidableEq, Repr

/-- Mutable state of main's loops: the posted counter, the per-run name
cache (a map keyed by ORCID id; association-list order is irrelevant to
dict lookup), and the trace of observable events. -/
structure RunState where
  posted : Nat
  cache : List (String × String)
  events : List Event
  deriving DecidableEq, Repr

/-- Number of person-record fetches for one identifier in a trace. -/
def fetchCount (events : List Event) (oid : String) : Nat :=
  (events.filter fun e =>
    match e with
    | .fetchName o => o == oid
    | _ => false).length

/-- Inner loop of main over one identifier's filtered items (lines
142-179): stop when the budget is reached, otherwise compose, publish,
and count; the courtesy sleep has no observable effect here. -/
def itemLoop (maxPosts : Nat) (oid authorName profileUrl : String)
    (hashtags : List String) : List Item → RunState → RunState
  | [], s => s
  | item :: rest, s =>
    if maxPosts ≤ s.posted then s
    else
      itemLoop maxPosts oid authorName profileUrl hashtags rest
        { s with
          posted := s.posted + 1,
          events := s.events
            ++ [Event.publish oid (composePost authorName profileUrl item hashtags)] }

/-- Outer loop of main over the configured identifiers (lines 122-179):
break when the budget is reached; otherwise resolve the name through the
cache (fetching only on a miss), fetch and filter the works, and run the
item loop.  An identifier with no recent items falls through because the
item loop on an empty list is the identity. -/
def runLoop (maxPosts : Nat) (days : Int) (hashtags : List String)
    (nameOf : String → String) (worksOf : String → List Group) (now : Int) :
    List String → RunState → RunState
  | [], s => s
  | oid :: rest, s =>
    if maxPosts ≤ s.posted then s
    else
      let s1 :=
        match s.cache.lookup oid with
        | some _ => s
        | none =>
          { s with
            cache := (oid, nameOf oid) :: s.cache,
            events := s.events ++ [Event.fetchName oid] }
      let authorName := (s1.cache.lookup oid).getD oid
      let s2 := { s1 with events := s1.events ++ [Event.fetchWorks oid] }
      let items := filter_recent now (worksOf oid) days
      let s3 := itemLoop maxPosts oid authorName ("https://orcid.org/" ++ oid)
        hashtags items s2
      runLoop maxPosts days hashtags nameOf worksOf now rest s3

/-- The configuration keys main reads from the loaded YAML mapping; an
Option field is one the code may find absent. -/
structure Config where
  orcid_ids : List String
  max_posts_total : Option Nat
  days_back : Option Int
  hashtags : Option (List String)
  deriving DecidableEq, Repr

/-- Line 116: cfg.get on max_posts_total with default 5. -/
def maxPostsOf (cfg : Config) : Nat := cfg.max_posts_total.getD 5

/-- Line 109: cfg.get on hashtags with default empty list. -/
def hashtagsOf (cfg : Config) : List String := cfg.hashtags.getD []

/-- Line 136: the subscript access cfg days_back, which raises KeyError
when the key is absent; there is no default for this key. -/
def daysBackOf (cfg : Config) : Except String Int :=
  match cfg.days_back with
  | some d => Except.ok d
  | none => Except.error "KeyError: days_back"

/-- A full run of main's posting phase from the initial state, for a
configuration whose days_back resolved to daysBack (a configuration
missing that key instead raises; see daysBackOf). -/
def runMain (cfg : Config) (daysBack : Int) (nameOf : String → String)
    (worksOf : String → List Group) (now : Int) : RunState :=
  runLoop (maxPostsOf cfg) daysBack (hashtagsOf cfg) nameOf worksOf now
    cfg.orcid_ids { posted := 0, cache := [], events := [] }

end OrcidBluesky

namespace OrcidBluesky

example : extractTitle (some (some (.vstr "Hello"))) = "Hello" := by decide
example : extractTitle (some (some (.vstr ""))) = "(no title)" := by decide
example : extractTitle (some (some (.vdict (some "")))) = "" := by decide
example : extractTitle none = "(no title)" := by decide
example : findDoi [⟨some "DOI", some "10.1/abc"⟩] = some "https://doi.org/10.1/abc" := by decide
example : findDoi [⟨some "doi", some ""⟩, ⟨some "doi", some "x"⟩] = some "https://doi.org/x" := by decide
example : processSummary 5 ⟨some 0, none, []⟩ = none := by decide
example : processSummary 5 ⟨some 5, none, []⟩ =
    some ⟨"(no title)", none, 5⟩ := by decide
example : fetch_orcid_name "0-1" (some ⟨some "Ada", some "Lovelace"⟩) = "Ada Lovelace" := by decide
example : fetch_orcid_name "0-1" (some ⟨some " ", none⟩) = "0-1" := by decide
example : buildText (tagSegs ["#ai", "science"]) = "#ai #science" := by decide
example : (tagSegs ["#ai", "science"]).map Segment.tagValue = [some "ai", some "science"] := by decide
example :
    runMain ⟨["a", "b"], some 1, some 7, none⟩ 7 (fun o => o) (fun _ => [⟨[⟨some 100, none, []⟩]⟩])
      (100 - 7 * msPerDay) =
    ⟨1, [("a", "a")],
      [Event.fetchName "a", Event.fetchWorks "a",
       Event.publish "a" (composePost "a" "https://orcid.org/a" ⟨"(no title)", none, 100⟩ [])]⟩ := by
  decide

/-- Helper: the first-match characterisation of the DOI scan. -/
theorem findDoi_eq_find (exts : List ExtId) :
    findDoi exts = (exts.find? isDoiHit).map fun e => "https://doi.org/" ++ e.value.getD "" := by
  induction exts with
  | nil => rfl
  | cons e rest ih =>
    by_cases ht : pyLower (e.idType.getD "") = "doi"
    · cases hv : e.value with
      | none => simp [findDoi, isDoiHit, ht, hv, ih]
      | some v =>
        by_cases hve : v = ""
        · simp [findDoi, isDoiHit, ht, hv, hve, ih]
        · simp [findDoi, isDoiHit, ht, hv, hve]
    · simp [findDoi, isDoiHit, ht, ih]

/-- Helper: an emitted item carries exactly the extracted title, the DOI
scan result, and its own timestamp. -/
theorem processSummary_eq_some (cutoff : Int) (ws : WorkSummary) (item : Item)
    (h : processSummary cutoff ws = some item) :
    item.title = extractTitle ws.title ∧ item.url = findDoi ws.extIds
      ∧ ws.lastModified = some item.date := by
  unfold processSummary at h
  cases hm : ws.lastModified with
  | none => rw [hm] at h; exact absurd h (by simp)
  | some ts =>
    rw [hm] at h
    by_cases h0 : ts = 0
    · simp [h0] at h
    · by_cases hc : ts < cutoff
      · simp [h0, hc] at h
      · simp only [h0, hc, if_neg, if_false] at h
        simp only [if_neg h0, if_neg hc, Option.some.injEq] at h
        subst h
        exact ⟨rfl, rfl, rfl⟩

/-- Claim C4: an entry whose present, non-falsy timestamp is at least the
cutoff now minus daysBack (in milliseconds) is kept, and one strictly
earlier is skipped: the boundary is inclusive. -/
theorem recency_boundary_inclusive (now days ts : Int) (ws : WorkSummary)
    (hts : ws.lastModified = some ts) (hnz : ts ≠ 0) :
    (processSummary (now - days * msPerDay) ws).isSome ↔ now - days * msPerDay ≤ ts := by
  unfold processSummary
  rw [hts]
  by_cases hc : ts < now - days * msPerDay
  · simp [hnz, hc]
    omega
  · simp [hnz, hc]
    omega

/-- Claim C4 witness: with now at 1700000000000 ms and a 7-day window, an entry
stamped exactly at the cutoff is kept and one a millisecond earlier is
skipped. -/
theorem recency_boundary_inclusive_witness :
    (processSummary (1700000000000 - 7 * msPerDay)
      ⟨some (1700000000000 - 7 * msPerDay), none, []⟩).isSome
    ∧ ¬ (processSummary (1700000000000 - 7 * msPerDay)
      ⟨some (1700000000000 - 7 * msPerDay - 1), none, []⟩).isSome := by
  constructor
  · exact (recency_boundary_inclusive 1700000000000 7 (1700000000000 - 7 * msPerDay)
      ⟨some (1700000000000 - 7 * msPerDay), none, []⟩ rfl (by decide)).mpr (by decide)
  · intro hsome
    exact absurd ((recency_boundary_inclusive 1700000000000 7 (1700000000000 - 7 * msPerDay - 1)
      ⟨some (1700000000000 - 7 * msPerDay - 1), none, []⟩ rfl (by decide)).mp hsome) (by decide)

/-- Claim C10: an entry whose last-modified value is present but falsy (the
integer 0) is skipped exactly as when the timestamp is absent: no item
is emitted either way. -/
theorem falsy_zero_timestamp_skipped (cutoff : Int) (ws : WorkSummary)
    (h : ws.lastModified = some 0) :
    processSummary cutoff ws = none
    ∧ processSummary cutoff { ws with lastModified := none } = none := by
  exact ⟨by simp [processSummary, h], by simp [processSummary]⟩

/-- Claim C10 witness: an epoch-stamped entry is dropped even though the cutoff
is far below its timestamp comparison would allow. -/
theorem falsy_zero_timestamp_skipped_witness :
    processSummary (-5) ⟨some 0, none, []⟩ = none
    ∧ processSummary (-5) ⟨none, none, []⟩ = none :=
  falsy_zero_timestamp_skipped (-5) ⟨some 0, none, []⟩ rfl

/-- Claim C7: name resolution is total; a failed fetch (the none response,
covering every exception of the guarded block) yields the raw identifier,
and otherwise the function yields either the raw identifier (when the
joined name is empty) or a non-empty resolved name. -/
theorem name_resolution_never_raises (orcidId : String) (response : Option PersonName) :
    (response = none → fetch_orcid_name orcidId response = orcidId)
    ∧ (fetch_orcid_name orcidId response = orcidId ∨ fetch_orcid_name orcidId response ≠ "") := by
  constructor
  · intro h
    simp [fetch_orcid_name, h]
  · cases response with
    | none => exact Or.inl rfl
    | some pn =>
      simp only [fetch_orcid_name]
      split
      · exact Or.inl rfl
      · next h => exact Or.inr h

/-- Claim C7 witness: a failing fetch for a concrete identifier returns that
identifier. -/
theorem name_resolution_never_raises_witness :
    fetch_orcid_name "0000-0002-1825-0097" none = "0000-0002-1825-0097" :=
  (name_resolution_never_raises "0000-0002-1825-0097" none).1 rfl

/-- Claim C5: the link is built from the first external identifier whose type
case-insensitively equals doi with a non-empty value, as https doi.org
slash value; it is absent exactly when no such identifier exists; and an
emitted item's link is exactly that scan's result. -/
theorem doi_link_first_match (exts : List ExtId) (cutoff : Int) (ws : WorkSummary)
    (item : Item) :
    findDoi exts = ((exts.find? isDoiHit).map fun e => "https://doi.org/" ++ e.value.getD "")
    ∧ ((findDoi exts).isSome ↔ (exts.find? isDoiHit).isSome)
    ∧ (processSummary cutoff ws = some item → item.url = findDoi ws.extIds) := by
  refine ⟨findDoi_eq_find exts, ?_, fun h => (processSummary_eq_some cutoff ws item h).2.1⟩
  rw [findDoi_eq_find exts]
  cases exts.find? isDoiHit <;> simp

/-- Claim C5 witness: a kept entry whose identifiers hold a falsy-valued doi, a
non-doi type, then an upper-case DOI yields the link of the third one. -/
theorem doi_link_first_match_witness :
    (⟨"(no title)", some "https://doi.org/10.1/abc", 50⟩ : Item).url
      = findDoi [⟨some "doi", some ""⟩, ⟨some "issn", some "123"⟩, ⟨some "DOI", some "10.1/abc"⟩]
    ∧ findDoi [⟨some "doi", some ""⟩, ⟨some "issn", some "123"⟩, ⟨some "DOI", some "10.1/abc"⟩]
      = some "https://doi.org/10.1/abc" := by
  constructor
  · exact (doi_link_first_match
      [⟨some "doi", some ""⟩, ⟨some "issn", some "123"⟩, ⟨some "DOI", some "10.1/abc"⟩] 40
      ⟨some 50, none, [⟨some "doi", some ""⟩, ⟨some "issn", some "123"⟩, ⟨some "DOI", some "10.1/abc"⟩]⟩
      ⟨"(no title)", some "https://doi.org/10.1/abc", 50⟩).2.2 (by decide)
  · decide

/-- Claim C2 counterexample: a work summary inside the recency window whose
title field is a dict holding an explicitly empty value string is emitted
with an empty title, not the placeholder: the dict branch takes the value
verbatim and nothing trims or replaces it. -/
theorem title_empty_emitted_cex :
    (filter_recent 1000 [⟨[⟨some 1000, some (some (TitleVal.vdict (some ""))), []⟩]⟩] 0).map
      (fun x => x.title) = [""]
    ∧ ("" : String) ≠ "(no title)" := by decide

/-- Claim C2 amended: a missing title field, a falsy or unrecognised nested
value (including the empty string shape), or a dict without a value key
yields the placeholder; but a dict with a value key yields that value
verbatim, possibly empty, and a non-empty string shape is used verbatim
with no whitespace trimming.  An emitted item's title is exactly this
extraction. -/
theorem title_fallback_amended (t : Option (Option TitleVal)) (cutoff : Int)
    (ws : WorkSummary) (item : Item) :
    ((t = none ∨ t = some none ∨ t = some (some (TitleVal.vstr ""))
        ∨ t = some (some (TitleVal.vdict none)) ∨ t = some (some TitleVal.vother))
      → extractTitle t = "(no title)")
    ∧ (∀ s : String, t = some (some (TitleVal.vstr s)) → s ≠ "" → extractTitle t = s)
    ∧ (∀ v : String, t = some (some (TitleVal.vdict (some v))) → extractTitle t = v)
    ∧ (processSummary cutoff ws = some item → item.title = extractTitle ws.title) := by
  refine ⟨?_, ?_, ?_, fun h => (processSummary_eq_some cutoff ws item h).1⟩
  · rintro (rfl | rfl | rfl | rfl | rfl) <;> rfl
  · rintro s rfl hs
    simp [extractTitle, pyTruthyTitle, hs]
  · rintro v rfl
    rfl

/-- Claim C2 amended witness: the three title shapes at concrete inputs. -/
theorem title_fallback_amended_witness :
    extractTitle (some (some (TitleVal.vstr ""))) = "(no title)"
    ∧ extractTitle (some (some (TitleVal.vstr " spaced "))) = " spaced "
    ∧ extractTitle (some (some (TitleVal.vdict (some "")))) = "" := by
  refine ⟨?_, ?_, ?_⟩
  · exact (title_fallback_amended (some (some (TitleVal.vstr ""))) 0
      ⟨none, none, []⟩ ⟨"", none, 0⟩).1 (Or.inr (Or.inr (Or.inl rfl)))
  · exact (title_fallback_amended (some (some (TitleVal.vstr " spaced "))) 0
      ⟨none, none, []⟩ ⟨"", none, 0⟩).2.1 " spaced " rfl (by decide)
  · exact (title_fallback_amended (some (some (TitleVal.vdict (some "")))) 0
      ⟨none, none, []⟩ ⟨"", none, 0⟩).2.2.1 "" rfl

/-- Claim C9 counterexample: a configuration without a days_back key does not
fall back to 7: the subscript access raises a missing-key error. -/
theorem days_back_no_default_cex :
    daysBackOf ⟨[], none, none, none⟩ = Except.error "KeyError: days_back"
    ∧ daysBackOf ⟨[], none, none, none⟩ ≠ Except.ok 7 :=
  ⟨rfl, fun h => nomatch h⟩

/-- Claim C9 amended: an omitted max_posts_total defaults to 5, which lies in
the stated 5 to 10 band; an omitted days_back has no default and raises a
missing-key error, while a present one is used as given. -/
theorem config_defaults_amended (cfg : Config) :
    (cfg.max_posts_total = none
      → maxPostsOf cfg = 5 ∧ 5 ≤ maxPostsOf cfg ∧ maxPostsOf cfg ≤ 10)
    ∧ (cfg.days_back = none → daysBackOf cfg = Except.error "KeyError: days_back")
    ∧ (∀ d : Int, cfg.days_back = some d → daysBackOf cfg = Except.ok d) := by
  refine ⟨fun h => ?_, fun h => ?_, fun d h => ?_⟩
  · simp [maxPostsOf, h]
  · simp [daysBackOf, h]
  · simp [daysBackOf, h]

/-- Helper: membership in an insertion step. -/
theorem mem_insertDesc {x z : Item} {l : List Item} (h : z ∈ insertDesc x l) :
    z = x ∨ z ∈ l := by
  induction l with
  | nil => simpa [insertDesc] using h
  | cons y ys ih =>
    unfold insertDesc at h
    by_cases hc : x.date < y.date
    · rw [if_pos hc] at h
      rcases List.mem_cons.mp h with rfl | h
      · exact Or.inr (List.mem_cons_self _ _)
      · rcases ih h with rfl | h
        · exact Or.inl rfl
        · exact Or.inr (List.mem_cons_of_mem _ h)
    · rw [if_neg hc] at h
      rcases List.mem_cons.mp h with rfl | h
      · exact Or.inl rfl
      · exact Or.inr h

/-- Helper: inserting into a descending list keeps it descending. -/
theorem insertDesc_pairwise {x : Item} {l : List Item}
    (hl : l.Pairwise fun a b => b.date ≤ a.date) :
    (insertDesc x l).Pairwise fun a b => b.date ≤ a.date := by
  induction l with
  | nil => simp [insertDesc]
  | cons y ys ih =>
    rcases List.pairwise_cons.mp hl with ⟨hy, hys⟩
    unfold insertDesc
    by_cases hc : x.date < y.date
    · rw [if_pos hc]
      refine List.pairwise_cons.mpr ⟨fun z hz => ?_, ih hys⟩
      rcases mem_insertDesc hz with rfl | hz
      · exact le_of_lt hc
      · exact hy z hz
    · rw [if_neg hc]
      refine List.pairwise_cons.mpr ⟨fun z hz => ?_, hl⟩
      rcases List.mem_cons.mp hz with rfl | hz
      · exact not_lt.mp hc
      · exact le_trans (hy z hz) (not_lt.mp hc)

/-- Helper: the sort output is descending by date. -/
theorem sortDesc_pairwise (l : List Item) :
    (sortDesc l).Pairwise fun a b => b.date ≤ a.date := by
  induction l with
  | nil => simp [sortDesc]
  | cons x xs ih => exact insertDesc_pairwise ih

/-- Helper: inserting an element of a different date leaves the slice of
a given date untouched. -/
theorem insertDesc_filter_ne {x : Item} {t : Int} (hx : x.date ≠ t) (l : List Item) :
    (insertDesc x l).filter (fun y => y.date == t) = l.filter fun y => y.date == t := by
  induction l with
  | nil => simp [insertDesc, List.filter_cons, hx]
  | cons y ys ih =>
    unfold insertDesc
    by_cases hc : x.date < y.date
    · rw [if_pos hc]
      by_cases hy : y.date = t
      · simp [List.filter_cons, hy, ih]
      · simp [List.filter_cons, hy, ih]
    · rw [if_neg hc]
      simp [List.filter_cons, hx]

/-- Helper: an inserted element of date t heads the slice of date t,
because it passes only over strictly newer elements. -/
theorem insertDesc_filter_eq {x : Item} {t : Int} (hx : x.date = t) (l : List Item) :
    (insertDesc x l).filter (fun y => y.date == t)
      = x :: l.filter fun y => y.date == t := by
  induction l with
  | nil => simp [insertDesc, List.filter_cons, hx]
  | cons y ys ih =>
    unfold insertDesc
    by_cases hc : x.date < y.date
    · rw [if_pos hc]
      have hy : ¬ y.date = t := by omega
      simp [List.filter_cons, hy, ih]
    · rw [if_neg hc]
      simp [List.filter_cons, hx]

/-- Helper: sorting never reorders the slice of any one date, which is
exactly stability under the descending-by-date preorder. -/
theorem sortDesc_filter (t : Int) (l : List Item) :
    (sortDesc l).filter (fun y => y.date == t) = l.filter fun y => y.date == t := by
  induction l with
  | nil => rfl
  | cons x xs ih =>
    unfold sortDesc
    by_cases hx : x.date = t
    · rw [insertDesc_filter_eq hx, ih, List.filter_cons]
      simp [hx]
    · rw [insertDesc_filter_ne hx, ih, List.filter_cons]
      simp [hx]

/-- Claim C6: the filter output is sorted by date descending, and for every
timestamp the subsequence of that date equals the subsequence of that
date in the pre-sort traversal order: ties keep their input order. -/
theorem filter_recent_sorted_stable (now days : Int) (groups : List Group) :
    (filter_recent now groups days).Pairwise (fun a b => b.date ≤ a.date)
    ∧ ∀ t : Int,
        (filter_recent now groups days).filter (fun x => x.date == t)
          = (collectItems (now - days * msPerDay) groups).filter fun x => x.date == t := by
  unfold filter_recent
  exact ⟨sortDesc_pairwise _, fun t => sortDesc_filter t _⟩

/-- Helper: unrolling the accumulator of String.intercalate. -/
theorem intercalate_go_cons (s : String) (l : List String) :
    ∀ a b : String,
      String.intercalate.go a s (b :: l) = a ++ s ++ String.intercalate.go b s l := by
  induction l with
  | nil =>
    intro a b
    show a ++ s ++ b = a ++ s ++ b
    rfl
  | cons c cs ih =>
    intro a b
    show String.intercalate.go (a ++ s ++ b) s (c :: cs)
      = a ++ s ++ String.intercalate.go b s (c :: cs)
    rw [ih (a ++ s ++ b) c, ih b c]
    simp [String.append_assoc]

/-- Helper: intercalate on a list of two or more strings peels its head
together with one separator. -/
theorem intercalate_cons_cons (s a b : String) (l : List String) :
    String.intercalate s (a :: b :: l) = a ++ s ++ String.intercalate s (b :: l) := by
  show String.intercalate.go a s (b :: l) = a ++ s ++ String.intercalate.go b s l
  exact intercalate_go_cons s l a b

/-- Helper: unrolling the accumulator of buildText. -/
theorem buildText_go (l : List Segment) :
    ∀ a : String, l.foldl (fun acc s => acc ++ s.displayText) a = a ++ buildText l := by
  induction l with
  | nil =>
    intro a
    show a = a ++ ""
    simp
  | cons x xs ih =>
    intro a
    show xs.foldl (fun acc s => acc ++ s.displayText) (a ++ x.displayText)
      = a ++ buildText (x :: xs)
    rw [ih (a ++ x.displayText)]
    have : buildText (x :: xs) = x.displayText ++ buildText xs := by
      show xs.foldl (fun acc s => acc ++ s.displayText) ("" ++ x.displayText)
        = x.displayText ++ buildText xs
      rw [ih ("" ++ x.displayText)]
      simp
    rw [this, String.append_assoc]

/-- Helper: buildText peels its head segment. -/
theorem buildText_cons (x : Segment) (xs : List Segment) :
    buildText (x :: xs) = x.displayText ++ buildText xs := by
  show xs.foldl (fun acc s => acc ++ s.displayText) ("" ++ x.displayText)
    = x.displayText ++ buildText xs
  rw [buildText_go xs ("" ++ x.displayText)]
  simp

/-- Helper: the flattened hashtag segments are the cleaned tags rendered
with a hash and joined by single spaces, with no trailing space. -/
theorem buildText_tagSegs (tags : List String) :
    buildText (tagSegs tags)
      = String.intercalate " " (tags.map fun t => "#" ++ lstripHash t) := by
  induction tags with
  | nil => rfl
  | cons t rest ih =>
    cases rest with
    | nil =>
      show buildText [Segment.tag ("#" ++ lstripHash t) (lstripHash t)]
        = String.intercalate " " ["#" ++ lstripHash t]
      rw [buildText_cons]
      show "#" ++ lstripHash t ++ buildText [] = "#" ++ lstripHash t
      simp [buildText]
    | cons u us =>
      show buildText (Segment.tag ("#" ++ lstripHash t ++ " ") (lstripHash t)
          :: tagSegs (u :: us))
        = String.intercalate " " (("#" ++ lstripHash t) :: ("#" ++ lstripHash u)
          :: us.map fun x => "#" ++ lstripHash x)
      rw [buildText_cons, ih, intercalate_cons_cons]
      show "#" ++ lstripHash t ++ " "
          ++ String.intercalate " " (("#" ++ lstripHash u) :: us.map fun x => "#" ++ lstripHash x)
        = "#" ++ lstripHash t ++ " "
          ++ String.intercalate " " (("#" ++ lstripHash u) :: us.map fun x => "#" ++ lstripHash x)
      rfl

/-- Helper: the hashtag segments are one tag span per configured tag,
carrying the hash-stripped tag as underlying value. -/
theorem tagSegs_values (tags : List String) :
    (tagSegs tags).map Segment.tagValue = tags.map fun t => some (lstripHash t) := by
  induction tags with
  | nil => rfl
  | cons t rest ih =>
    cases rest with
    | nil => rfl
    | cons u us =>
      show some (lstripHash t) :: (tagSegs (u :: us)).map Segment.tagValue
        = some (lstripHash t) :: (u :: us).map fun x => some (lstripHash x)
      rw [ih]

/-- Claim C3: with a non-empty hashtag list, the composed document is the
hashtag-free document followed by a line break and the tag spans; the
flattened tag line is the cleaned tags each rendered as hash plus tag,
space-separated with no trailing space; and the spans carry the
hash-stripped values, one per configured hashtag. -/
theorem hashtag_line_rendering (authorName profileUrl : String) (item : Item)
    (hashtags : List String) (h : hashtags ≠ []) :
    composePost authorName profileUrl item hashtags
      = composePost authorName profileUrl item []
        ++ Segment.text "\n" :: tagSegs hashtags
    ∧ buildText (tagSegs hashtags)
      = String.intercalate " " (hashtags.map fun t => "#" ++ lstripHash t)
    ∧ (tagSegs hashtags).map Segment.tagValue
      = hashtags.map fun t => some (lstripHash t) := by
  refine ⟨?_, buildText_tagSegs hashtags, tagSegs_values hashtags⟩
  cases hashtags with
  | nil => exact absurd rfl h
  | cons t rest =>
    simp [composePost, List.append_assoc]

/-- Claim C3 witness: for hashtags hash-ai and science, the flattened tag line
is exactly hash-ai space hash-science, the span values are ai and
science, and the document decomposes as stated. -/
theorem hashtag_line_rendering_witness :
    buildText (tagSegs ["#ai", "science"]) = "#ai #science"
    ∧ (tagSegs ["#ai", "science"]).map Segment.tagValue = [some "ai", some "science"]
    ∧ composePost "A" "P" ⟨"T", none, 0⟩ ["#ai", "science"]
      = composePost "A" "P" ⟨"T", none, 0⟩ []
        ++ Segment.text "\n" :: tagSegs ["#ai", "science"] := by
  have h := hashtag_line_rendering "A" "P" ⟨"T", none, 0⟩ ["#ai", "science"] (by decide)
  refine ⟨?_, h.2.2, h.1⟩
  rw [h.2.1]
  decide

/-- Helper: the item loop never pushes the counter past the budget. -/
theorem itemLoop_posted_le (maxPosts : Nat) (oid authorName profileUrl : String)
    (hashtags : List String) (items : List Item) :
    ∀ s : RunState, s.posted ≤ maxPosts →
      (itemLoop maxPosts oid authorName profileUrl hashtags items s).posted ≤ maxPosts := by
  induction items with
  | nil => exact fun s h => h
  | cons it rest ih =>
    intro s h
    unfold itemLoop
    by_cases hb : maxPosts ≤ s.posted
    · rw [if_pos hb]; exact h
    · rw [if_neg hb]
      exact ih _ (Nat.succ_le_of_lt (Nat.lt_of_not_le hb))

/-- Helper: with the budget already reached, the item loop is the
identity, performing no publish. -/
theorem itemLoop_frozen (maxPosts : Nat) (oid authorName profileUrl : String)
    (hashtags : List String) (items : List Item) (s : RunState)
    (h : maxPosts ≤ s.posted) :
    itemLoop maxPosts oid authorName profileUrl hashtags items s = s := by
  cases items with
  | nil => rfl
  | cons it rest => unfold itemLoop; rw [if_pos h]

/-- Helper: the identifier loop never pushes the counter past the budget. -/
theorem runLoop_posted_le (maxPosts : Nat) (days : Int) (hashtags : List String)
    (nameOf : String → String) (worksOf : String → List Group) (now : Int)
    (oids : List String) :
    ∀ s : RunState, s.posted ≤ maxPosts →
      (runLoop maxPosts days hashtags nameOf worksOf now oids s).posted ≤ maxPosts := by
  induction oids with
  | nil => exact fun s h => h
  | cons oid rest ih =>
    intro s h
    unfold runLoop
    by_cases hb : maxPosts ≤ s.posted
    · rw [if_pos hb]; exact h
    · rw [if_neg hb]
      cases hlk : s.cache.lookup oid with
      | some n =>
        simp only [hlk]
        exact ih _ (itemLoop_posted_le _ _ _ _ _ _ _ h)
      | none =>
        simp only [hlk]
        exact ih _ (itemLoop_posted_le _ _ _ _ _ _ _ h)

/-- Helper: with the budget already reached, the identifier loop halts at
once: no fetch, no publish, no further identifier visited. -/
theorem runLoop_frozen (maxPosts : Nat) (days : Int) (hashtags : List String)
    (nameOf : String → String) (worksOf : String → List Group) (now : Int)
    (oids : List String) (s : RunState) (h : maxPosts ≤ s.posted) :
    runLoop maxPosts days hashtags nameOf worksOf now oids s = s := by
  cases oids with
  | nil => rfl
  | cons oid rest => unfold runLoop; rw [if_pos h]

/-- Claim C1: a full run posts at most the configured budget; from any state
within budget the identifier loop stays within budget; and once the
budget is reached both loops are the identity: the item loop performs no
further publish and the outer loop visits no further identifier. -/
theorem run_budget_monotone (cfg : Config) (maxPosts : Nat) (daysBack days : Int)
    (hashtags : List String) (nameOf : String → String)
    (worksOf : String → List Group) (now : Int) (oids : List String)
    (oid authorName profileUrl : String) (items : List Item) (s : RunState) :
    (runMain cfg daysBack nameOf worksOf now).posted ≤ maxPostsOf cfg
    ∧ (s.posted ≤ maxPosts →
        (runLoop maxPosts days hashtags nameOf worksOf now oids s).posted ≤ maxPosts)
    ∧ (maxPosts ≤ s.posted →
        runLoop maxPosts days hashtags nameOf worksOf now oids s = s
        ∧ itemLoop maxPosts oid authorName profileUrl hashtags items s = s) := by
  refine ⟨?_, fun h => runLoop_posted_le _ _ _ _ _ _ _ _ h,
    fun h => ⟨runLoop_frozen _ _ _ _ _ _ _ _ h,
      itemLoop_frozen _ _ _ _ _ _ _ h⟩⟩
  exact runLoop_posted_le _ _ _ _ _ _ _ _ (Nat.zero_le _)

/-- Claim C1 witness: with budget one, a run over two identifiers each holding
one recent work posts exactly once, and from a state already at the
budget both loops are the identity. -/
theorem run_budget_monotone_witness :
    (runMain ⟨["a", "b"], some 1, some 0, none⟩ 0 (fun o => o)
        (fun _ => [⟨[⟨some 9, none, []⟩]⟩]) 9).posted
      ≤ maxPostsOf ⟨["a", "b"], some 1, some 0, none⟩
    ∧ runLoop 1 0 [] (fun o => o) (fun _ => [⟨[⟨some 9, none, []⟩]⟩]) 9 ["b"]
        ⟨1, [("a", "a")], []⟩ = ⟨1, [("a", "a")], []⟩
    ∧ itemLoop 1 "b" "b" "https://orcid.org/b" [] [⟨"(no title)", none, 9⟩]
        ⟨1, [("a", "a")], []⟩ = ⟨1, [("a", "a")], []⟩ := by
  have h := run_budget_monotone ⟨["a", "b"], some 1, some 0, none⟩ 1 0 0 []
    (fun o => o) (fun _ => [⟨[⟨some 9, none, []⟩]⟩]) 9 ["b"] "b" "b"
    "https://orcid.org/b" [⟨"(no title)", none, 9⟩] ⟨1, [("a", "a")], []⟩
  exact ⟨h.1, (h.2.2 (by decide)).1, (h.2.2 (by decide)).2⟩

/-- The per-run cache invariant: an identifier has been person-fetched at
most once, and only if it is now a key of the cache. -/
def cacheInv (s : RunState) : Prop :=
  ∀ oid : String,
    fetchCount s.events oid ≤ if (s.cache.lookup oid).isSome then 1 else 0

/-- Helper: counting fetches distributes over trace concatenation. -/
theorem fetchCount_append (evs evs2 : List Event) (oid : String) :
    fetchCount (evs ++ evs2) oid = fetchCount evs oid + fetchCount evs2 oid := by
  simp [fetchCount, List.filter_append]

/-- Helper: the item loop leaves the cache untouched and adds no
person-fetch event. -/
theorem itemLoop_cache_fetch (maxPosts : Nat) (oid authorName profileUrl : String)
    (hashtags : List String) (items : List Item) :
    ∀ s : RunState,
      (itemLoop maxPosts oid authorName profileUrl hashtags items s).cache = s.cache
      ∧ ∀ o : String,
          fetchCount (itemLoop maxPosts oid authorName profileUrl hashtags items s).events o
            = fetchCount s.events o := by
  induction items with
  | nil => exact fun s => ⟨rfl, fun o => rfl⟩
  | cons it rest ih =>
    intro s
    unfold itemLoop
    by_cases hb : maxPosts ≤ s.posted
    · rw [if_pos hb]; exact ⟨rfl, fun o => rfl⟩
    · rw [if_neg hb]
      refine ⟨(ih _).1, fun o => ?_⟩
      rw [(ih _).2 o, fetchCount_append]
      simp [fetchCount]

/-- Helper: the identifier loop preserves the cache invariant: a fetch is
recorded only on a cache miss and the fetched identifier becomes a key. -/
theorem runLoop_cacheInv (maxPosts : Nat) (days : Int) (hashtags : List String)
    (nameOf : String → String) (worksOf : String → List Group) (now : Int)
    (oids : List String) :
    ∀ s : RunState, cacheInv s →
      cacheInv (runLoop maxPosts days hashtags nameOf worksOf now oids s) := by
  induction oids with
  | nil => exact fun s h => h
  | cons oid rest ih =>
    intro s h
    unfold runLoop
    by_cases hb : maxPosts ≤ s.posted
    · rw [if_pos hb]; exact h
    · rw [if_neg hb]
      cases hlk : s.cache.lookup oid with
      | some n =>
        simp only [hlk]
        refine ih _ fun o => ?_
        rw [(itemLoop_cache_fetch _ _ _ _ _ _ _).1,
          (itemLoop_cache_fetch _ _ _ _ _ _ _).2 o, fetchCount_append]
        simpa [fetchCount] using h o
      | none =>
        simp only [hlk]
        refine ih _ fun o => ?_
        rw [(itemLoop_cache_fetch _ _ _ _ _ _ _).1,
          (itemLoop_cache_fetch _ _ _ _ _ _ _).2 o]
        show fetchCount (s.events ++ [Event.fetchName oid] ++ [Event.fetchWorks oid]) o
          ≤ if (((oid, nameOf oid) :: s.cache).lookup o).isSome then 1 else 0
        rw [fetchCount_append, fetchCount_append]
        by_cases ho : o = oid
        · subst ho
          have h0 : fetchCount s.events o = 0 := by
            have hx := h o
            rw [hlk] at hx
            simpa using hx
          have h1 : fetchCount [Event.fetchName o] o = 1 := by
            simp [fetchCount]
          have h2 : fetchCount [Event.fetchWorks o] o = 0 := rfl
          rw [h0, h1, h2]
          simp [List.lookup]
        · have hx := h o
          have hno : (o == oid) = false := by
            simpa [beq_iff_eq] using ho
          have hon : (oid == o) = false := by
            simp only [beq_eq_false_iff_ne, ne_eq]
            exact fun hc => ho hc.symm
          have hf1 : fetchCount [Event.fetchName oid] o = 0 := by
            simp [fetchCount, hon]
          have hf2 : fetchCount [Event.fetchWorks oid] o = 0 := rfl
          rw [hf1, hf2]
          simp only [List.lookup, hno]
          simpa using hx

/-- Claim C8: across any full run, each identifier's person record is fetched
at most once; the runner consults the per-run cache first and a hit
skips the fetch. -/
theorem name_fetch_at_most_once (cfg : Config) (daysBack : Int)
    (nameOf : String → String) (worksOf : String → List Group) (now : Int)
    (oid : String) :
    fetchCount (runMain cfg daysBack nameOf worksOf now).events oid ≤ 1 := by
  have hinv : cacheInv { posted := 0, cache := [], events := [] } := by
    intro o
    simp [fetchCount, List.lookup]
  have h := runLoop_cacheInv (maxPostsOf cfg) daysBack (hashtagsOf cfg) nameOf worksOf
    now cfg.orcid_ids _ hinv oid
  exact le_trans h (by split <;> omega)

/-- Claim C9 amended witness: the defaults at a concrete empty configuration
and a concrete present value. -/
theorem config_defaults_amended_witness :
    maxPostsOf ⟨[], none, none, none⟩ = 5
    ∧ daysBackOf ⟨[], none, none, none⟩ = Except.error "KeyError: days_back"
    ∧ daysBackOf ⟨[], none, some 3, none⟩ = Except.ok 3 :=
  ⟨((config_defaults_amended ⟨[], none, none, none⟩).1 rfl).1,
   (config_defaults_amended ⟨[], none, none, none⟩).2.1 rfl,
   (config_defaults_amended ⟨[], none, some 3, none⟩).2.2 3 rfl⟩

end OrcidBluesky
